import Mathlib

/-!
Shallow embedding of the mini in-process relational store in
`src/PythonPatterns4/main.py`: type validators, Column, Row, Table CRUD,
the SimpleQuery builder, JoinedTable and the Database registry.

Python values appearing in the store are modelled by the inductive
`Value`; Python dictionaries by association lists with Python dict
semantics (`dset` updates in place keeping position, otherwise appends).
Python `bool` is a subtype of `int`, so `isinstance(v, int)` holds for
booleans; this is reflected in `Value.isinstInt`.  Fallible Python code
(raising ValueError / KeyError / TypeError) is embedded with `Except`;
mutating methods are embedded by explicit state passing, returning the
table unchanged on the error paths exactly because the source mutates
only after all raise points have been passed.  Python floats only occur
as results of `avg`; they are modelled by rationals (the values the
verified claims touch, `25.0` and `0.0`, are exactly representable).
-/

namespace MiniDB

/-- Python runtime values that can be stored in this database.
`vdate` models a `datetime.date` object by its year, month, day. -/
inductive Value where
  | vnone
  | vint (n : Int)
  | vbool (b : Bool)
  | vstr (s : String)
  | vdate (y m d : Nat)
deriving Repr, DecidableEq

/-- Error taxonomy: the distinct exception messages raised by the source
(`ValueError` for validation and registry failures, `KeyError` for missing
dict keys and `Table.update` on an unknown id, `TypeError` for unsupported
comparisons and additions). -/
inductive DBErr where
  | validationError (col : String)
  | notFound (rowId : Nat)
  | keyError (k : String)
  | typeError
  | duplicateTable (name : String)
  | unknownTable (name : String)
  | unknownColumn (tbl col : String)
  | notPrimaryKey
  | unknownType (tag : String)
deriving Repr, DecidableEq

instance {ε α : Type} [DecidableEq ε] [DecidableEq α] : DecidableEq (Except ε α) :=
  fun a b =>
    match a, b with
    | .ok x, .ok y => decidable_of_iff (x = y) ⟨fun h => h ▸ rfl, fun h => by injection h⟩
    | .ok _, .error _ => isFalse (fun h => Except.noConfusion h)
    | .error _, .ok _ => isFalse (fun h => Except.noConfusion h)
    | .error e, .error f => decidable_of_iff (e = f) ⟨fun h => h ▸ rfl, fun h => by injection h⟩

/-- Numeric view used by Python arithmetic and comparisons: `bool` is an
`int` subtype, `True == 1` and `False == 0`. -/
def Value.toNum : Value → Option Int
  | .vint n => some n
  | .vbool b => some (if b then 1 else 0)
  | _ => none

/-- Python `==` between stored values: total, numeric across int/bool,
`False` across categories (no exception). -/
def pyEq : Value → Value → Bool
  | .vnone, .vnone => true
  | .vstr a, .vstr b => a == b
  | .vdate y m d, .vdate y2 m2 d2 => y == y2 && m == m2 && d == d2
  | a, b =>
    match a.toNum, b.toNum with
    | some x, some y => x == y
    | _, _ => false

/-- Python `<` between stored values; raises `TypeError` on unsupported
operand pairs (e.g. `None < 5`, `1 < "a"`). -/
def pyLt : Value → Value → Except DBErr Bool
  | .vstr a, .vstr b => .ok (decide (a < b))
  | .vdate y m d, .vdate y2 m2 d2 =>
      .ok (decide (y < y2 ∨ (y = y2 ∧ (m < m2 ∨ (m = m2 ∧ d < d2)))))
  | a, b =>
    match a.toNum, b.toNum with
    | some x, some y => .ok (decide (x < y))
    | _, _ => .error .typeError

/-- Python `<=` between stored values. -/
def pyLe : Value → Value → Except DBErr Bool
  | .vstr a, .vstr b => .ok (decide (a ≤ b))
  | .vdate y m d, .vdate y2 m2 d2 =>
      .ok (decide (y < y2 ∨ (y = y2 ∧ (m < m2 ∨ (m = m2 ∧ d ≤ d2)))))
  | a, b =>
    match a.toNum, b.toNum with
    | some x, some y => .ok (decide (x ≤ y))
    | _, _ => .error .typeError

/-- Python `>`: for the built-in types stored here `a > b` agrees with `b < a`. -/
def pyGt (a b : Value) : Except DBErr Bool := pyLt b a

/-- Python `>=`. -/
def pyGe (a b : Value) : Except DBErr Bool := pyLe b a

/-- Fields of a row: a Python dict from column name to value, modelled as
an association list in insertion order. -/
abbrev Fields := List (String × Value)

/-- Dict lookup (`d[k]` without the raise, `d.get(k)` without the default). -/
def dfind? (d : Fields) (k : String) : Option Value :=
  (d.find? (fun p => p.1 == k)).map (·.2)

/-- Dict membership test (`k in d`). -/
def dcontains (d : Fields) (k : String) : Bool :=
  (dfind? d k).isSome

/-- Dict item assignment `d[k] = v`: updates an existing key in place
keeping its position, otherwise appends at the end, as Python dicts do. -/
def dset (d : Fields) (k : String) (v : Value) : Fields :=
  if dcontains d k then d.map (fun p => if p.1 == k then (k, v) else p)
  else d ++ [(k, v)]

/-- Building a dict from key/value pairs, later occurrences of a key
overwriting earlier ones (`dict(pairs)`). -/
def pydict (l : Fields) : Fields :=
  l.foldl (fun acc p => dset acc p.1 p.2) []

/-- Python `d.update(e)`. -/
def dupdate (d e : Fields) : Fields :=
  e.foldl (fun acc p => dset acc p.1 p.2) d

/-- Python `d.get(k)`, whose default is `None`. -/
def dget (d : Fields) (k : String) : Value :=
  (dfind? d k).getD .vnone

/-- Keys of a dict in order. -/
def dkeys (d : Fields) : List String := d.map (·.1)

/-- Leap year test of the Gregorian calendar, as `datetime` uses. -/
def isLeapYear (y : Nat) : Bool :=
  (y % 4 == 0 && y % 100 != 0) || (y % 400 == 0)

/-- Number of days of month `m` in year `y`. -/
def daysInMonth (y m : Nat) : Nat :=
  if m == 2 then (if isLeapYear y then 29 else 28)
  else if m == 4 || m == 6 || m == 9 || m == 11 then 30
  else 31

/-- Validity of a `YYYY-MM-DD` string as a calendar date, the shape
accepted by `datetime.date.fromisoformat` (external standard library;
per the spec, a string parseable as an ISO-8601 calendar date). -/
def isoDateValid (s : String) : Bool :=
  match s.toList with
  | [y1, y2, y3, y4, c1, m1, m2, c2, d1, d2] =>
    if c1 == '-' && c2 == '-' && [y1, y2, y3, y4, m1, m2, d1, d2].all Char.isDigit then
      let y := (y1.toNat - 48) * 1000 + (y2.toNat - 48) * 100 + (y3.toNat - 48) * 10 + (y4.toNat - 48)
      let m := (m1.toNat - 48) * 10 + (m2.toNat - 48)
      let d := (d1.toNat - 48) * 10 + (d2.toNat - 48)
      1 ≤ y && 1 ≤ m && m ≤ 12 && 1 ≤ d && d ≤ daysInMonth y m
    else false
  | _ => false

/-- Python `isinstance(v, int)`: true for ints and for bools, since
`bool` is an `int` subclass. -/
def Value.isinstInt : Value → Bool
  | .vint _ => true
  | .vbool _ => true
  | _ => false

/-- The four data-type validators (IntegerType, StringType with optional
maximum length, BooleanType, DateType). -/
inductive DataType where
  | integer
  | string (maxLength : Option Nat)
  | boolean
  | date
deriving Repr, DecidableEq

/-- `DataType.validate`, following each validator class of the source. -/
def DataType.validate : DataType → Value → Bool
  | .integer, v => v.isinstInt
  | .string ml, v =>
    match v with
    | .vstr s =>
      match ml with
      | some m => decide (s.length ≤ m)
      | none => true
    | _ => false
  | .boolean, v =>
    match v with
    | .vbool _ => true
    | _ => false
  | .date, v =>
    match v with
    | .vdate _ _ _ => true
    | .vstr s => isoDateValid s
    | _ => false

/-- Column schema slot. -/
structure Column where
  name : String
  data_type : DataType
  nullable : Bool := true
  primary_key : Bool := false
  foreign_key : Option (String × String) := none
deriving Repr, DecidableEq

/-- `Column.validate`: a `None` value is acceptable iff the column is
nullable, anything else is delegated to the data type. -/
def Column.validate (c : Column) (v : Value) : Bool :=
  match v with
  | .vnone => c.nullable
  | _ => c.data_type.validate v

/-- One stored record: the field dict and the table-assigned id
(`None` until the owning table assigns one). -/
structure Row where
  data : Fields
  id : Option Nat
deriving Repr, DecidableEq

/-- `Row.__init__`: copies the incoming mapping (`dict(data)`), id is `None`. -/
def Row.make (data : Fields) : Row :=
  { data := pydict data, id := none }

/-- `Row.__getitem__`: raises `KeyError` on a missing key — missing is
never treated as null. -/
def Row.getItem (r : Row) (k : String) : Except DBErr Value :=
  match dfind? r.data k with
  | some v => .ok v
  | none => .error (.keyError k)

/-- `Row.__setitem__`. -/
def Row.setItem (r : Row) (k : String) (v : Value) : Row :=
  { r with data := dset r.data k v }

/-- Dict-comprehension semantics of `{c.name: c for c in columns}`: later
columns of a duplicated name overwrite in place, first position kept. -/
def colUpsert (acc : List Column) (c : Column) : List Column :=
  if acc.any (fun d => d.name == c.name) then
    acc.map (fun d => if d.name == c.name then c else d)
  else acc ++ [c]

/-- The `name -> Column` dict of a table, as an ordered duplicate-free list. -/
def colsDict (cols : List Column) : List Column :=
  cols.foldl colUpsert []

/-- Table state: schema dict, stored rows in insertion order, and the
`next_id` counter starting at 1. -/
structure Table where
  name : String
  columns : List Column
  rows : List Row
  nextId : Nat
deriving Repr, DecidableEq

/-- `Table.__init__`. -/
def Table.make (name : String) (columns : List Column) : Table :=
  { name, columns := colsDict columns, rows := [], nextId := 1 }

/-- Validation loop of `Table._validate_row_data`: every declared column
is checked against `row_data.get(name)` (missing key read as `None`),
raising on the first failure. -/
def validateColumns : List Column → Fields → Except DBErr Unit
  | [], _ => .ok ()
  | c :: cs, rowData =>
    if c.validate (dget rowData c.name) then validateColumns cs rowData
    else .error (.validationError c.name)

/-- `Table._validate_row_data`. -/
def Table.validateRowData (t : Table) (rowData : Fields) : Except DBErr Unit :=
  validateColumns t.columns rowData

/-- `Table.insert`: validate, then construct the row, assign the next id,
bump the counter and append.  All mutation happens after the only raise
point, hence the unchanged table on the error path. -/
def Table.insert (t : Table) (rowData : Fields) : Except DBErr Row × Table :=
  match t.validateRowData rowData with
  | .error e => (.error e, t)
  | .ok _ =>
    let row : Row := { data := pydict rowData, id := some t.nextId }
    (.ok row, { t with rows := t.rows ++ [row], nextId := t.nextId + 1 })

/-- `Table.get_by_id`: linear scan for the first row with that id. -/
def Table.getById (t : Table) (rowId : Nat) : Option Row :=
  t.rows.find? (fun r => r.id == some rowId)

/-- Replacing the first row carrying `rowId` models the in-place mutation
of the object `get_by_id` returned. -/
def replaceFirstById (rows : List Row) (rowId : Nat) (newRow : Row) : List Row :=
  match rows with
  | [] => []
  | r :: rs =>
    if r.id == some rowId then newRow :: rs
    else r :: replaceFirstById rs rowId newRow

/-- `Table.update`: raises on a missing id, merges a candidate copy,
re-validates the whole candidate, and only then commits the merge into
the stored row. -/
def Table.update (t : Table) (rowId : Nat) (newData : Fields) : Except DBErr Row × Table :=
  match t.getById rowId with
  | none => (.error (.notFound rowId), t)
  | some row =>
    let candidate := dupdate row.data newData
    match t.validateRowData candidate with
    | .error e => (.error e, t)
    | .ok _ =>
      let updated := { row with data := candidate }
      (.ok updated, { t with rows := replaceFirstById t.rows rowId updated })

/-- Removal of the first row carrying `rowId` (`list.remove` removes the
first element identical to the object `get_by_id` found). -/
def removeFirstById (rows : List Row) (rowId : Nat) : List Row :=
  match rows with
  | [] => []
  | r :: rs =>
    if r.id == some rowId then rs
    else r :: removeFirstById rs rowId

/-- `Table.delete`: `False` when the id is absent, `True` after removing. -/
def Table.delete (t : Table) (rowId : Nat) : Bool × Table :=
  match t.getById rowId with
  | none => (false, t)
  | some _ => (true, { t with rows := removeFirstById t.rows rowId })

/-- `Table.select_all` returns `list(self.rows)`; at the level of list
values this is the row sequence itself (the copy/aliasing distinction is
studied in the heap model further down). -/
def Table.selectAll (t : Table) : List Row := t.rows

/-- One step of a client interaction with a single table: an insert
attempt or a delete. -/
inductive TableOp where
  | ins (rowData : Fields)
  | del (rowId : Nat)
deriving Repr, DecidableEq

/-- Applying one operation, reporting the id a successful insert assigned. -/
def Table.applyOp (t : Table) : TableOp → Table × Option Nat
  | .ins rd =>
    match t.insert rd with
    | (.ok row, t2) => (t2, row.id)
    | (.error _, t2) => (t2, none)
  | .del rid => ((t.delete rid).2, none)

/-- Running a sequence of operations, collecting the assigned ids in order. -/
def Table.runOps (t : Table) : List TableOp → Table × List Nat
  | [] => (t, [])
  | op :: ops =>
    match t.applyOp op with
    | (t2, some i) =>
      let res := t2.runOps ops
      (res.1, i :: res.2)
    | (t2, none) => t2.runOps ops

/-- Builder state of `SimpleQuery`: the row source, the optional output
column list, the accumulated `(column, operator, value)` clauses and the
optional sort key. -/
structure SimpleQuery where
  source : List Row
  selectedColumns : Option (List String) := none
  filterConditions : List (String × String × Value) := []
  sortColumn : Option String := none
  sortAscending : Bool := true
deriving Repr, DecidableEq

/-- `SimpleQuery.__init__` over a row source. -/
def SimpleQuery.make (rows : List Row) : SimpleQuery := { source := rows }

/-- `SimpleQuery.select`. -/
def SimpleQuery.select (q : SimpleQuery) (cols : List String) : SimpleQuery :=
  { q with selectedColumns := some cols }

/-- `SimpleQuery.where` (named `whereC` because `where` is reserved in Lean). -/
def SimpleQuery.whereC (q : SimpleQuery) (col op : String) (v : Value) : SimpleQuery :=
  { q with filterConditions := q.filterConditions ++ [(col, op, v)] }

/-- `SimpleQuery.order_by`. -/
def SimpleQuery.orderBy (q : SimpleQuery) (col : String) (asc : Bool) : SimpleQuery :=
  { q with sortColumn := some col, sortAscending := asc }

/-- One clause of the `elif` chain of `SimpleQuery._matches`: the row
passes the clause unless the named operator compares false; a string that
is none of the six operators never rejects. -/
def condTest (rowValue : Value) (op : String) (v : Value) : Except DBErr Bool :=
  if op == "=" then .ok (pyEq rowValue v)
  else if op == ">" then pyGt rowValue v
  else if op == "<" then pyLt rowValue v
  else if op == ">=" then pyGe rowValue v
  else if op == "<=" then pyLe rowValue v
  else if op == "!=" then .ok (!(pyEq rowValue v))
  else .ok true

/-- Conjunctive filter loop of `SimpleQuery._matches`: each clause first
reads `row[column]` (a `KeyError` site), then applies the operator, and
the first false clause rejects the row. -/
def matchesConds : List (String × String × Value) → Row → Except DBErr Bool
  | [], _ => .ok true
  | (col, op, v) :: rest, r => do
    let rv ← r.getItem col
    let b ← condTest rv op v
    if b then matchesConds rest r else pure false

/-- `SimpleQuery._matches`. -/
def SimpleQuery.matches (q : SimpleQuery) (r : Row) : Except DBErr Bool :=
  matchesConds q.filterConditions r

/-- Filtering pass of `SimpleQuery._filtered_rows`, keeping source order. -/
def filterRows (conds : List (String × String × Value)) : List Row → Except DBErr (List Row)
  | [] => .ok []
  | r :: rs => do
    let b ← matchesConds conds r
    let rest ← filterRows conds rs
    pure (if b then r :: rest else rest)

/-- Python `<` on the sort keys `(v is None, v)` of `_filtered_rows`:
tuples compare left to right, booleans as 0/1, so a `None` key compares
greater than every non-`None` key; two non-`None` keys fall through to
`==` and then `<` on the values (a `TypeError` site). -/
def keyLtV (a b : Value) : Except DBErr Bool :=
  match a, b with
  | .vnone, .vnone => .ok false
  | .vnone, _ => .ok false
  | _, .vnone => .ok true
  | a, b => if pyEq a b then .ok false else pyLt a b

/-- Key comparison used at a given sort direction (`reverse=not ascending`
flips every comparison while Python sort keeps ties stable). -/
def sortLt (asc : Bool) (a b : Value) : Except DBErr Bool :=
  if asc then keyLtV a b else keyLtV b a

/-- Rows paired with their extracted sort key. -/
abbrev Keyed := Row × Value

/-- Stable ordered insertion: `x` is placed before the first element `y`
whose key is not strictly below the key of `x`, so equal keys keep the
input order, as Python guarantees for `list.sort`. -/
def insertKeyed (asc : Bool) (x : Keyed) : List Keyed → Except DBErr (List Keyed)
  | [] => .ok [x]
  | y :: ys => do
    let b ← sortLt asc y.2 x.2
    if b then
      let rest ← insertKeyed asc x ys
      pure (y :: rest)
    else pure (x :: y :: ys)

/-- Stable sort of keyed rows; extensionally Python `list.sort(key=...)`,
which is stable for any total key order (this is insertion sort, Python
uses timsort; every stable sort of a total preorder yields the same list). -/
def sortKeyed (asc : Bool) : List Keyed → Except DBErr (List Keyed)
  | [] => .ok []
  | x :: xs => do
    let s ← sortKeyed asc xs
    insertKeyed asc x s

/-- Key extraction pass of the sort: `row[sort_column]` is read for
every element, in order, before any comparison happens (a `KeyError`
site), as CPython does for `list.sort(key=...)`. -/
def keyRows (c : String) : List Row → Except DBErr (List Keyed)
  | [] => .ok []
  | r :: rs => do
    let v ← r.getItem c
    let rest ← keyRows c rs
    pure ((r, v) :: rest)

/-- `SimpleQuery._filtered_rows`: filter, then (when a sort column is
set) extract every row's key and sort stably. -/
def SimpleQuery.filteredRows (q : SimpleQuery) : Except DBErr (List Row) := do
  let filtered ← filterRows q.filterConditions q.source
  match q.sortColumn with
  | none => pure filtered
  | some c => do
    let keyed ← keyRows c filtered
    let sorted ← sortKeyed q.sortAscending keyed
    pure (sorted.map (·.1))

/-- `SimpleQuery.execute`: a truthy (non-empty) `selected_columns`
projects each row to the requested columns, silently skipping absent
ones, into freshly built rows; otherwise the filtered rows themselves
are returned. -/
def SimpleQuery.execute (q : SimpleQuery) : Except DBErr (List Row) := do
  let fr ← q.filteredRows
  match q.selectedColumns with
  | some (c :: cs) =>
    pure (fr.map (fun r =>
      Row.make ((c :: cs).foldl (fun acc col =>
        match dfind? r.data col with
        | some v => dset acc col v
        | none => acc) [])))
  | _ => pure fr

/-- `SimpleQuery.count`. -/
def SimpleQuery.count (q : SimpleQuery) : Except DBErr Nat := do
  let fr ← q.filteredRows
  pure fr.length

/-- Python `total += value` for a stored value: numeric for ints and
bools, `TypeError` otherwise. -/
def addPy (acc : Int) (v : Value) : Except DBErr Int :=
  match v.toNum with
  | some n => .ok (acc + n)
  | none => .error .typeError

/-- Accumulation loop of `SimpleQuery.sum`: each row's value is read
with `row[column]` (a `KeyError` site) and added unless it is `None`. -/
def sumLoop (col : String) (acc : Int) : List Row → Except DBErr Int
  | [] => .ok acc
  | r :: rs => do
    let v ← r.getItem col
    match v with
    | .vnone => sumLoop col acc rs
    | v => do
      let acc2 ← addPy acc v
      sumLoop col acc2 rs

/-- `SimpleQuery.sum`. -/
def SimpleQuery.sum (q : SimpleQuery) (col : String) : Except DBErr Int := do
  let fr ← q.filteredRows
  sumLoop col 0 fr

/-- Collection loop of `SimpleQuery.avg`: the non-`None` values at the
column over the filtered rows, in order. -/
def collectVals (col : String) : List Row → Except DBErr (List Value)
  | [] => .ok []
  | r :: rs => do
    let v ← r.getItem col
    let rest ← collectVals col rs
    pure (if v == Value.vnone then rest else v :: rest)

/-- Python built-in `sum(values)` starting from the int 0. -/
def sumVals (acc : Int) : List Value → Except DBErr Int
  | [] => .ok acc
  | v :: vs => do
    let acc2 ← addPy acc v
    sumVals acc2 vs

/-- `SimpleQuery.avg`: `0.0` on an empty contribution list, otherwise
`sum(values) / len(values)`; true division of ints is modelled by the
exact rational (the claims only touch exactly representable results). -/
def SimpleQuery.avg (q : SimpleQuery) (col : String) : Except DBErr ℚ := do
  let fr ← q.filteredRows
  let vals ← collectVals col fr
  if vals.isEmpty then pure 0
  else do
    let total ← sumVals 0 vals
    pure ((total : ℚ) / (vals.length : ℚ))

/-- Field names of a source row prefixed with its table's name, as
`JoinedTable._build_rows` writes them. -/
def prefixedItems (tableName : String) (d : Fields) : Fields :=
  d.map (fun p => (tableName ++ "." ++ p.1, p.2))

/-- Output dict of one joined pair: an empty dict filled first with the
prefixed left items, then with the prefixed right items (a right item
whose prefixed name collides with a left one overwrites it in place). -/
def joinedRowData (leftName rightName : String) (l r : Row) : Fields :=
  dupdate (dupdate [] (prefixedItems leftName l.data)) (prefixedItems rightName r.data)

/-- Inner loop of `JoinedTable._build_rows` for one left row: each pair
reads the two join values (`KeyError` sites) and emits a joined row when
they compare equal under Python `==`. -/
def joinOne (leftName rightName lc rc : String) (l : Row) :
    List Row → Except DBErr (List Row)
  | [] => .ok []
  | r :: rs => do
    let lv ← l.getItem lc
    let rv ← r.getItem rc
    let rest ← joinOne leftName rightName lc rc l rs
    if pyEq lv rv then
      pure (Row.make (joinedRowData leftName rightName l r) :: rest)
    else pure rest

/-- Outer loop of `JoinedTable._build_rows`: left-major, right-minor. -/
def joinAll (leftName rightName lc rc : String) (rightRows : List Row) :
    List Row → Except DBErr (List Row)
  | [] => .ok []
  | l :: ls => do
    let first ← joinOne leftName rightName lc rc l rightRows
    let rest ← joinAll leftName rightName lc rc rightRows ls
    pure (first ++ rest)

/-- Eagerly materialized inner-join view. -/
structure JoinedTable where
  left : Table
  right : Table
  leftColumn : String
  rightColumn : String
  name : String
  rows : List Row
deriving Repr, DecidableEq

/-- `JoinedTable.__init__` (with the default derived name), running
`_build_rows` eagerly. -/
def JoinedTable.make (lt rt : Table) (lc rc : String) : Except DBErr JoinedTable := do
  let rows ← joinAll lt.name rt.name lc rc rt.rows lt.rows
  pure { left := lt, right := rt, leftColumn := lc, rightColumn := rc,
         name := lt.name ++ "_join_" ++ rt.name, rows }

/-- Registry state of `Database`: the name given at first construction
and the name-to-table catalog (the process-wide singleton aspect is not
needed by the verified claims). -/
structure Database where
  name : String
  tables : List (String × Table)
deriving Repr, DecidableEq

/-- Lookup in the table catalog. -/
def tfind? (ts : List (String × Table)) (k : String) : Option Table :=
  (ts.find? (fun p => p.1 == k)).map (·.2)

/-- Foreign-key validation loop of `Database.create_table`, in column
order: unknown referenced table, then unknown referenced column, then a
referenced column that is not a primary key. -/
def checkForeignKeys (db : Database) : List Column → Except DBErr Unit
  | [] => .ok ()
  | c :: cs =>
    match c.foreign_key with
    | none => checkForeignKeys db cs
    | some (refTable, refColumn) =>
      match tfind? db.tables refTable with
      | none => .error (.unknownTable refTable)
      | some rt =>
        match rt.columns.find? (fun d => d.name == refColumn) with
        | none => .error (.unknownColumn refTable refColumn)
        | some rc =>
          if rc.primary_key then checkForeignKeys db cs
          else .error .notPrimaryKey

/-- `Database.create_table`: duplicate-name check, foreign-key checks,
and only then construction and registration. -/
def Database.createTable (db : Database) (name : String) (columns : List Column) :
    Except DBErr Table × Database :=
  if (tfind? db.tables name).isSome then (.error (.duplicateTable name), db)
  else
    match checkForeignKeys db columns with
    | .error e => (.error e, db)
    | .ok _ =>
      let t := Table.make name columns
      (.ok t, { db with tables := db.tables ++ [(name, t)] })

/-- `Database.get_table` (`self.tables[name]`, a `KeyError` site). -/
def Database.getTable (db : Database) (name : String) : Except DBErr Table :=
  match tfind? db.tables name with
  | some t => .ok t
  | none => .error (.keyError name)

/-!
Heap model for the aliasing behaviour of `Table.select_all`.  Python
`list(self.rows)` allocates a new list object holding the same `Row`
object references; a caller can mutate the returned list object freely,
but the `Row` objects themselves are shared with the table.  `PyState`
carries the two relevant object heaps: field dicts of `Row` objects and
lists of row references.
-/

/-- Object heaps: `rowHeap` maps a row reference to its field dict,
`listHeap` maps a list reference to a list of row references. -/
structure PyState where
  rowHeap : List Fields
  listHeap : List (List Nat)
deriving Repr, DecidableEq

/-- A table's identity in the heap model: the reference of its internal
`rows` list object. -/
structure HTable where
  rowsRef : Nat
deriving Repr, DecidableEq

/-- The row references the table's internal list currently holds. -/
def PyState.rowsList (st : PyState) (t : HTable) : List Nat :=
  st.listHeap.getD t.rowsRef []

/-- The stored rows as the table observes them: its list dereferenced
through the row heap. -/
def PyState.tableRowsData (st : PyState) (t : HTable) : List Fields :=
  (st.rowsList t).map (fun r => st.rowHeap.getD r [])

/-- `Table.select_all` in the heap model: allocates a fresh list object
containing the same row references and returns its reference. -/
def selectAllH (st : PyState) (t : HTable) : PyState × Nat :=
  ({ st with listHeap := st.listHeap ++ [st.rowsList t] }, st.listHeap.length)

/-- Structural mutations a caller can perform on a list object it holds. -/
inductive ListOp where
  | append (r : Nat)
  | removeAt (i : Nat)
  | insertAt (i r : Nat)
  | setAt (i r : Nat)
  | reverse
deriving Repr, DecidableEq

/-- Effect of one structural list mutation on the list's value. -/
def applyListOp (l : List Nat) : ListOp → List Nat
  | .append r => l ++ [r]
  | .removeAt i => l.eraseIdx i
  | .insertAt i r => l.take i ++ r :: l.drop i
  | .setAt i r => l.set i r
  | .reverse => l.reverse

/-- Performing one structural mutation on the list object at `ref`. -/
def PyState.mutateList (st : PyState) (ref : Nat) (op : ListOp) : PyState :=
  { st with listHeap := st.listHeap.set ref (applyListOp (st.listHeap.getD ref []) op) }

/-- Performing a sequence of structural mutations on one list object. -/
def PyState.mutateListMany (st : PyState) (ref : Nat) : List ListOp → PyState
  | [] => st
  | op :: ops => (st.mutateList ref op).mutateListMany ref ops

/-- `Row.__setitem__` on the row object at `rref`: visible through every
alias of that row. -/
def PyState.setRowItem (st : PyState) (rref : Nat) (k : String) (v : Value) : PyState :=
  { st with rowHeap := st.rowHeap.set rref (dset (st.rowHeap.getD rref []) k v) }

/-!
Pure companions of the monadic sort, used to state and prove the sorting
claims: on values that are `None` or ints (the only shapes the verified
sorting claims involve) the key order `(v is None, v)` collapses to the
order on `Option Int` with `none` as the top element.
-/

/-- Sort key of a stored value as an `Option Int` (meaningful on values
that are `None` or ints). -/
def keyOI : Value → Option Int
  | .vint n => some n
  | _ => none

/-- Strict key order: ints by `<`, `none` above every int. -/
def kLt (a b : Option Int) : Bool :=
  match a, b with
  | none, none => false
  | none, some _ => false
  | some _, none => true
  | some x, some y => decide (x < y)

/-- Reflexive key order `a ≤ b`, defined as `¬ b < a`. -/
def kLe (a b : Option Int) : Bool := !(kLt b a)

/-- A value the sorting bridge applies to: `None` or an int. -/
def sortOK (v : Value) : Prop := v = .vnone ∨ ∃ n : Int, v = .vint n

/-- Pure counterpart of the ascending comparison on keyed rows. -/
def ascLe (x y : Keyed) : Prop := kLe (keyOI x.2) (keyOI y.2) = true

/-- Pure counterpart of the descending comparison on keyed rows. -/
def descLe (x y : Keyed) : Prop := kLe (keyOI y.2) (keyOI x.2) = true

/-- The total preorder Python's stable sort realizes at each direction. -/
def sortRel (asc : Bool) : Keyed → Keyed → Prop :=
  fun x y => if asc then ascLe x y else descLe x y

instance : DecidableRel ascLe := fun _ _ => instDecidableEqBool _ _

instance : DecidableRel descLe := fun _ _ => instDecidableEqBool _ _

instance (asc : Bool) : DecidableRel (sortRel asc) := fun x y => by
  unfold sortRel
  exact if h : asc then by simp [h]; infer_instance else by simp [h]; infer_instance

/-- Spec-form join output (`section 3, Joined View` of the design): each
matched pair contributes the plain union of the left fields prefixed with
the left table's name and the right fields prefixed with the right
table's name. -/
def specJoinedRows (lt rt : Table) (lc rc : String) : List Row :=
  lt.rows.flatMap (fun l =>
    (rt.rows.filter (fun r => pyEq (dget l.data lc) (dget r.data rc))).map
      (fun r => ⟨prefixedItems lt.name l.data ++ prefixedItems rt.name r.data, none⟩))

/-!
Concrete inputs used by individual claims.
-/

/-- Table of the aggregate scenario: rows with values 10, 20, 30. -/
def c5table : Table :=
  (((((Table.make "numbers"
      [⟨"id", .integer, false, true, none⟩, ⟨"value", .integer, false, false, none⟩]).insert
      [("id", .vint 1), ("value", .vint 10)]).2).insert
      [("id", .vint 2), ("value", .vint 20)]).2.insert
      [("id", .vint 3), ("value", .vint 30)]).2

/-- The query `where("value", ">", 10)` over that table. -/
def c5query : SimpleQuery :=
  (SimpleQuery.make c5table.rows).whereC "value" ">" (.vint 10)

/-- Query whose single filter clause rejects the row lacking column `b`
before anything reads `b`. -/
def c10q : SimpleQuery :=
  { source := [⟨[("a", .vint 2), ("b", .vint 5)], some 1⟩, ⟨[("a", .vint 1)], some 2⟩],
    filterConditions := [("a", "=", .vint 2)] }

/-- Ascending sort over a null key and an int key. -/
def c1q : SimpleQuery :=
  { source := [⟨[("c", .vnone)], some 1⟩, ⟨[("c", .vint 5)], some 2⟩],
    sortColumn := some "c", sortAscending := true }

/-- Left side of the name-collision join: a table named `u`. -/
def c7lt : Table := ⟨"u", [], [⟨[("a", .vint 1), ("j", .vint 0)], some 1⟩], 2⟩

/-- Right side of the name-collision join: a different table also named
`u`, carrying a different value at `a` (table names are only unique per
registry; `JoinedTable` takes any two tables). -/
def c7rt : Table := ⟨"u", [], [⟨[("a", .vint 2), ("j", .vint 0)], some 1⟩], 2⟩

/-- Left side of the well-named join scenario. -/
def c7wlt : Table := ⟨"users", [], [⟨[("id", .vint 1), ("name", .vstr "Alice")], some 1⟩], 2⟩

/-- Right side of the well-named join scenario. -/
def c7wrt : Table := ⟨"orders", [], [⟨[("id", .vint 100), ("user_id", .vint 1)], some 1⟩], 2⟩

/-- Schema of the registry scenario: a primary-key id and a plain name. -/
def c6cols : List Column :=
  [⟨"id", .integer, false, true, none⟩, ⟨"name", .string (some 50), false, false, none⟩]

/-- Registry already holding a `users` table over that schema. -/
def c6db : Database := ⟨"testdb", [("users", Table.make "users" c6cols)]⟩

/-- Heap with one row object `{a: 1}` and the table's internal rows list
holding the single reference to it. -/
def c8st : PyState := ⟨[[("a", .vint 1)]], [[0]]⟩

/-- The table owning list object 0. -/
def c8t : HTable := ⟨0⟩

-- ===================== Theorems =====================

theorem dfind?_eq_none {d : Fields} {k : String} :
    dfind? d k = none ↔ k ∉ dkeys d := by
  induction d with
  | nil => simp [dfind?, dkeys]
  | cons p ps ih =>
    have hd : dkeys (p :: ps) = p.1 :: dkeys ps := rfl
    by_cases h : p.1 = k
    · have hf : List.find? (fun q => q.1 == k) (p :: ps) = some p :=
        List.find?_cons_of_pos _ (by simpa using h)
      simp [dfind?, hf, hd, h]
    · have hf : List.find? (fun q => q.1 == k) (p :: ps) = List.find? (fun q => q.1 == k) ps :=
        List.find?_cons_of_neg _ (by simpa using h)
      rw [dfind?] at ih ⊢
      rw [hf, hd]
      simp only [List.mem_cons, not_or]
      constructor
      · intro hn
        exact ⟨fun he => h he.symm, ih.1 hn⟩
      · intro hh
        exact ih.2 hh.2

theorem dcontains_eq_false {d : Fields} {k : String} (h : k ∉ dkeys d) :
    dcontains d k = false := by
  simp [dcontains, dfind?_eq_none.2 h]

theorem dset_of_not_mem (d : Fields) (k : String) (v : Value) (h : k ∉ dkeys d) :
    dset d k v = d ++ [(k, v)] := by
  simp [dset, dcontains_eq_false h]

theorem foldl_dset_append (f : Fields) : ∀ acc : Fields, (dkeys f).Nodup →
    (∀ k ∈ dkeys f, k ∉ dkeys acc) →
    f.foldl (fun a p => dset a p.1 p.2) acc = acc ++ f := by
  induction f with
  | nil => simp
  | cons p ps ih =>
    intro acc hnd hdisj
    have hd : dkeys (p :: ps) = p.1 :: dkeys ps := rfl
    rw [hd] at hnd hdisj
    have hnd' : (dkeys ps).Nodup := (List.nodup_cons.1 hnd).2
    have hp1 : p.1 ∉ dkeys ps := (List.nodup_cons.1 hnd).1
    simp only [List.foldl]
    rw [dset_of_not_mem _ _ _ (hdisj p.1 (by simp))]
    have hdisj' : ∀ k ∈ dkeys ps, k ∉ dkeys (acc ++ [p]) := by
      intro k hk
      have hk1 : k ∉ dkeys acc := hdisj k (by simp [hk])
      have hk2 : k ≠ p.1 := fun he => hp1 (he ▸ hk)
      have hke : dkeys (acc ++ [p]) = dkeys acc ++ [p.1] := by simp [dkeys]
      rw [hke]
      simp [hk1, hk2]
    rw [ih (acc ++ [p]) hnd' hdisj']
    simp

theorem pydict_eq_self {f : Fields} (h : (dkeys f).Nodup) : pydict f = f := by
  unfold pydict
  rw [foldl_dset_append f [] h (by simp [dkeys])]
  simp

/-- C2: a failed `insert` (ValidationError) or `update` (NotFoundError or
ValidationError) leaves the whole Table state — rows, stored field dicts
and the `next_id` counter — exactly as before the call. -/
theorem failed_insert_update_state_unchanged (t : Table) (f : Fields) (rid : Nat) (nd : Fields) :
    (∀ e, (t.insert f).1 = .error e → (t.insert f).2 = t) ∧
    (∀ e, (t.update rid nd).1 = .error e → (t.update rid nd).2 = t) := by
  constructor
  · intro e h
    unfold Table.insert at *
    cases hv : t.validateRowData f with
    | error e2 => simp [hv]
    | ok u => simp [hv] at h
  · intro e h
    unfold Table.update at *
    cases hg : t.getById rid with
    | none => simp [hg]
    | some row =>
      cases hv : t.validateRowData (dupdate row.data nd) with
      | error e2 => simp [hg, hv]
      | ok u => simp [hg, hv] at h

/-- Witness for C2: a concrete failing insert (null into a non-nullable
column) and a concrete failing update (unknown id) leave the table as it was. -/
theorem failed_insert_update_state_unchanged_witness :
    ((Table.make "t" [⟨"v", .integer, false, false, none⟩]).insert []).2 =
      Table.make "t" [⟨"v", .integer, false, false, none⟩] ∧
    ((Table.make "t" [⟨"v", .integer, false, false, none⟩]).update 5 []).2 =
      Table.make "t" [⟨"v", .integer, false, false, none⟩] :=
  ⟨(failed_insert_update_state_unchanged _ [] 5 []).1 (.validationError "v") rfl,
   (failed_insert_update_state_unchanged _ [] 5 []).2 (.notFound 5) rfl⟩

theorem applyOp_nextId_le (t : Table) (op : TableOp) :
    t.nextId ≤ (t.applyOp op).1.nextId := by
  cases op with
  | ins rd =>
    unfold Table.applyOp Table.insert
    cases hv : t.validateRowData rd <;> simp [hv]
  | del rid =>
    unfold Table.applyOp Table.delete
    cases hg : t.getById rid <;> simp [hg]

theorem applyOp_assigned (t : Table) (op : TableOp) {i : Nat}
    (h : (t.applyOp op).2 = some i) :
    i = t.nextId ∧ (t.applyOp op).1.nextId = t.nextId + 1 := by
  cases op with
  | ins rd =>
    unfold Table.applyOp Table.insert at *
    cases hv : t.validateRowData rd <;> simp [hv] at h ⊢
    omega
  | del rid =>
    unfold Table.applyOp at h
    simp at h

theorem runOps_assigned_lb (ops : List TableOp) : ∀ t : Table,
    ∀ i ∈ (t.runOps ops).2, t.nextId ≤ i := by
  induction ops with
  | nil => intro t i h; simp [Table.runOps] at h
  | cons op ops ih =>
    intro t i h
    unfold Table.runOps at h
    cases hop : t.applyOp op with
    | mk t2 oi =>
      cases oi with
      | some j =>
        simp [hop] at h
        rcases h with h | h
        · subst h
          exact le_of_eq (applyOp_assigned t op (by simp [hop])).1.symm
        · have h1 := ih t2 i h
          have h2 : t.nextId ≤ t2.nextId := by
            have := applyOp_nextId_le t op
            rw [hop] at this; exact this
          omega
      | none =>
        simp [hop] at h
        have h1 := ih t2 i h
        have h2 : t.nextId ≤ t2.nextId := by
          have := applyOp_nextId_le t op
          rw [hop] at this; exact this
        omega

/-- C3: over any sequence of inserts and deletes on any starting table,
the ids assigned by the successful inserts are pairwise strictly
increasing (hence never reused, even across deletes); concretely,
inserting three rows, deleting the second, then inserting a fourth
assigns ids 1, 2, 3, 4. -/
theorem assigned_ids_strictly_increasing :
    (∀ (t : Table) (ops : List TableOp), (t.runOps ops).2.Pairwise (· < ·)) ∧
    ((Table.make "t" []).runOps
        [.ins [], .ins [], .ins [], .del 2, .ins []]).2 = [1, 2, 3, 4] := by
  constructor
  · intro t ops
    induction ops generalizing t with
    | nil => simp [Table.runOps]
    | cons op ops ih =>
      unfold Table.runOps
      cases hop : t.applyOp op with
      | mk t2 oi =>
        cases oi with
        | some j =>
          simp only
          obtain ⟨hj, hn⟩ := @applyOp_assigned t op j (by simp [hop])
          rw [hop] at hn
          simp only at hn
          refine List.Pairwise.cons ?_ (ih t2)
          intro i hi
          have hlb := runOps_assigned_lb ops t2 i hi
          omega
        | none => exact ih t2
  · rfl

theorem find?_id_append {rows : List Row} {row : Row} {nid : Nat}
    (hrow : row.id = some nid) (h : ∀ r ∈ rows, r.id ≠ some nid) :
    (rows ++ [row]).find? (fun r => r.id == some nid) = some row := by
  induction rows with
  | nil => simp [List.find?, hrow]
  | cons a as ih =>
    have ha : ¬ ((fun r : Row => r.id == some nid) a = true) := by
      simpa using h a (by simp)
    have hstep : List.find? (fun r : Row => r.id == some nid) (a :: (as ++ [row])) =
        List.find? (fun r : Row => r.id == some nid) (as ++ [row]) :=
      List.find?_cons_of_neg _ ha
    rw [List.cons_append, hstep]
    exact ih (fun r hr => h r (by simp [hr]))

/-- C4: on a table whose stored ids respect the `next_id` invariant,
inserting a field set that passes validation succeeds, assigns
`next_id` as the new row's id, stores exactly the given fields, and
`get_by_id` on the returned id finds that very row. -/
theorem insert_getById_roundtrip (t : Table) (f : Fields)
    (hval : t.validateRowData f = .ok ())
    (hids : ∀ r ∈ t.rows, ∀ i, r.id = some i → i < t.nextId)
    (hnd : (dkeys f).Nodup) :
    ∃ row t2, t.insert f = (.ok row, t2) ∧ row.id = some t.nextId ∧
      row.data = f ∧ t2.getById t.nextId = some row := by
  refine ⟨⟨pydict f, some t.nextId⟩,
    { t with rows := t.rows ++ [⟨pydict f, some t.nextId⟩], nextId := t.nextId + 1 },
    ?_, rfl, pydict_eq_self hnd, ?_⟩
  · simp [Table.insert, hval]
  · unfold Table.getById
    simp only
    exact find?_id_append rfl (fun r hr he => by
      have := hids r hr t.nextId he
      omega)

/-- Witness for C4 at a concrete table and field set. -/
theorem insert_getById_roundtrip_witness :
    ∃ row t2,
      (Table.make "t" [⟨"v", .integer, true, false, none⟩]).insert [("v", .vint 7)] =
        (.ok row, t2) ∧
      row.id = some (Table.make "t" [⟨"v", .integer, true, false, none⟩]).nextId ∧
      row.data = [("v", .vint 7)] ∧
      t2.getById (Table.make "t" [⟨"v", .integer, true, false, none⟩]).nextId = some row :=
  insert_getById_roundtrip _ _ rfl (by simp [Table.make]) (by simp [dkeys])

theorem collectVals_all_none {col : String} {rs : List Row}
    (h : ∀ r ∈ rs, dfind? r.data col = some .vnone) :
    collectVals col rs = .ok [] := by
  induction rs with
  | nil => rfl
  | cons r rest ih =>
    have hr : r.getItem col = .ok .vnone := by
      simp [Row.getItem, h r (by simp)]
    have ht := ih (fun r2 h2 => h r2 (by simp [h2]))
    simp [collectVals, hr, ht, Bind.bind, Except.bind, Pure.pure, Except.pure]

/-- C5: on the table with values 10, 20, 30, the query
`where("value", ">", 10)` yields exactly the rows holding 20 and 30;
`count` is 2, `sum("value")` is 50, `avg("value")` is 25; and over any
filter whose matching rows all hold null at the column (in particular
zero matching rows), `avg` returns 0 rather than failing. -/
theorem query_filter_and_aggregates :
    c5query.execute = .ok [⟨[("id", .vint 2), ("value", .vint 20)], some 2⟩,
                           ⟨[("id", .vint 3), ("value", .vint 30)], some 3⟩] ∧
    c5query.count = .ok 2 ∧
    c5query.sum "value" = .ok 50 ∧
    c5query.avg "value" = .ok 25 ∧
    (∀ (q : SimpleQuery) (col : String) (rs : List Row),
      q.filteredRows = .ok rs →
      (∀ r ∈ rs, dfind? r.data col = some .vnone) →
      q.avg col = .ok 0) := by
  refine ⟨by decide, by decide, by decide, ?_, ?_⟩
  · have h : c5query.avg "value" =
        .ok ((((0 : Int) + 20 + 30 : Int) : ℚ) / ((2 : Nat) : ℚ)) := rfl
    rw [h]
    norm_num
  intro q col rs hfr hall
  unfold SimpleQuery.avg
  rw [hfr]
  simp [Bind.bind, Except.bind, collectVals_all_none hall, Pure.pure, Except.pure]

/-- Witness for C5: a one-row source holding null at the column, with no
filter, on which `avg` returns 0. -/
theorem query_filter_and_aggregates_witness :
    (SimpleQuery.make [⟨[("v", .vnone)], some 1⟩]).avg "v" = .ok 0 :=
  query_filter_and_aggregates.2.2.2.2 (SimpleQuery.make [⟨[("v", .vnone)], some 1⟩]) "v"
    [⟨[("v", .vnone)], some 1⟩] (by decide) (by decide)

theorem checkFK_skip_none (db : Database) (pre : List Column)
    (h : ∀ d ∈ pre, d.foreign_key = none) (cs : List Column) :
    checkForeignKeys db (pre ++ cs) = checkForeignKeys db cs := by
  induction pre with
  | nil => rfl
  | cons d ds ih =>
    have hd : d.foreign_key = none := h d (by simp)
    rw [List.cons_append]
    simp only [checkForeignKeys, hd]
    exact ih (fun x hx => h x (by simp [hx]))

/-- C6: `create_table` fails with the duplicate-table error when the name
is taken; any failure leaves the registry catalog unchanged; and for the
first foreign-key-bearing column, the unknown-table, unknown-column and
not-primary-key failures arise exactly as claimed. -/
theorem createTable_error_cases (db : Database) (name : String)
    (cols pre rest : List Column) (c : Column) :
    ((tfind? db.tables name).isSome = true →
      db.createTable name cols = (.error (.duplicateTable name), db)) ∧
    (∀ e, (db.createTable name cols).1 = .error e → (db.createTable name cols).2 = db) ∧
    (tfind? db.tables name = none →
      cols = pre ++ c :: rest →
      (∀ d ∈ pre, d.foreign_key = none) →
      ∀ rt rc, c.foreign_key = some (rt, rc) →
        ((tfind? db.tables rt = none →
          db.createTable name cols = (.error (.unknownTable rt), db)) ∧
         (∀ t2, tfind? db.tables rt = some t2 →
            t2.columns.find? (fun d => d.name == rc) = none →
            db.createTable name cols = (.error (.unknownColumn rt rc), db)) ∧
         (∀ t2 d, tfind? db.tables rt = some t2 →
            t2.columns.find? (fun d2 => d2.name == rc) = some d →
            d.primary_key = false →
            db.createTable name cols = (.error .notPrimaryKey, db)))) := by
  refine ⟨?_, ?_, ?_⟩
  · intro h
    unfold Database.createTable
    simp [h]
  · intro e h
    unfold Database.createTable at *
    by_cases hn : (tfind? db.tables name).isSome
    · simp [hn]
    · cases hfk : checkForeignKeys db cols with
      | error e2 => simp [hn, hfk]
      | ok u => simp [hn, hfk] at h
  · intro hn hcols hpre rt rc hfk
    subst hcols
    have hn2 : (tfind? db.tables name).isSome = false := by simp [hn]
    refine ⟨?_, ?_, ?_⟩
    · intro hrt
      unfold Database.createTable
      rw [checkFK_skip_none db pre hpre]
      simp [hn2, checkForeignKeys, hfk, hrt]
    · intro t2 hrt hrc
      unfold Database.createTable
      rw [checkFK_skip_none db pre hpre]
      simp [hn2, checkForeignKeys, hfk, hrt, hrc]
    · intro t2 d hrt hrc hpk
      unfold Database.createTable
      rw [checkFK_skip_none db pre hpre]
      simp [hn2, checkForeignKeys, hfk, hrt, hrc, hpk]

/-- Witness for C6: all four concrete failures against a registry holding
a `users` table (primary key `id`, plain column `name`), leaving the
registry unchanged each time. -/
theorem createTable_error_cases_witness :
    c6db.createTable "users" [] = (.error (.duplicateTable "users"), c6db) ∧
    c6db.createTable "orders" [⟨"uid", .integer, true, false, some ("unknown", "id")⟩] =
      (.error (.unknownTable "unknown"), c6db) ∧
    c6db.createTable "orders" [⟨"uid", .integer, true, false, some ("users", "nope")⟩] =
      (.error (.unknownColumn "users" "nope"), c6db) ∧
    c6db.createTable "orders" [⟨"uid", .integer, true, false, some ("users", "name")⟩] =
      (.error .notPrimaryKey, c6db) := by
  refine ⟨?_, ?_, ?_, ?_⟩
  · exact (createTable_error_cases c6db "users" [] [] [] ⟨"x", .integer, true, false, none⟩).1
      (by decide)
  · exact ((createTable_error_cases c6db "orders"
      [⟨"uid", .integer, true, false, some ("unknown", "id")⟩] []
      [] ⟨"uid", .integer, true, false, some ("unknown", "id")⟩).2.2
      (by decide) rfl (by simp) "unknown" "id" rfl).1 (by decide)
  · exact ((createTable_error_cases c6db "orders"
      [⟨"uid", .integer, true, false, some ("users", "nope")⟩] []
      [] ⟨"uid", .integer, true, false, some ("users", "nope")⟩).2.2
      (by decide) rfl (by simp) "users" "nope" rfl).2.1 (Table.make "users" c6cols)
      (by decide) (by decide)
  · exact ((createTable_error_cases c6db "orders"
      [⟨"uid", .integer, true, false, some ("users", "name")⟩] []
      [] ⟨"uid", .integer, true, false, some ("users", "name")⟩).2.2
      (by decide) rfl (by simp) "users" "name" rfl).2.2 (Table.make "users" c6cols)
      ⟨"name", .string (some 50), false, false, none⟩ (by decide) (by decide) (by decide)

/-- C9: `bool` being a Python subtype of `int`, `IntegerType.validate`
accepts both booleans, an Integer column accepts them through
`Column.validate`, a concrete insert and update of boolean values into a
non-nullable Integer column succeed, and `BooleanType.validate` rejects
every non-bool integer. -/
theorem integer_accepts_bool_boolean_rejects_int :
    (∀ b : Bool, DataType.integer.validate (.vbool b) = true) ∧
    (∀ n : Int, DataType.boolean.validate (.vint n) = false) ∧
    (∀ b : Bool, Column.validate ⟨"f", .integer, false, false, none⟩ (.vbool b) = true) ∧
    (∃ row t2, (Table.make "t" [⟨"f", .integer, false, false, none⟩]).insert
        [("f", .vbool true)] = (.ok row, t2) ∧
      ∃ row2 t3, t2.update 1 [("f", .vbool false)] = (.ok row2, t3)) := by
  exact ⟨fun b => rfl, fun n => rfl, fun b => rfl, ⟨_, _, rfl, _, _, rfl⟩⟩

theorem getD_append_lt {α : Type} (l l2 : List α) (d : α) (i : Nat) (h : i < l.length) :
    (l ++ l2).getD i d = l.getD i d := by
  induction l generalizing i with
  | nil => simp at h
  | cons a as ih =>
    cases i with
    | zero => rfl
    | succ n => simpa using ih n (by simpa using h)

theorem getD_concat_self {α : Type} (l : List α) (x d : α) :
    (l ++ [x]).getD l.length d = x := by
  induction l with
  | nil => rfl
  | cons a as ih => exact ih

theorem getD_set_ne {α : Type} (l : List α) (i j : Nat) (x : α) (d : α) (h : j ≠ i) :
    (l.set i x).getD j d = l.getD j d := by
  induction l generalizing i j with
  | nil => rfl
  | cons a as ih =>
    cases i with
    | zero =>
      cases j with
      | zero => exact absurd rfl h
      | succ n => rfl
    | succ m =>
      cases j with
      | zero => rfl
      | succ n => simpa using ih m n (fun he => h (by rw [he]))

theorem mutateListMany_preserves (ops : List ListOp) : ∀ (st : PyState) (ref j : Nat), j ≠ ref →
    (st.mutateListMany ref ops).listHeap.getD j [] = st.listHeap.getD j [] ∧
    (st.mutateListMany ref ops).rowHeap = st.rowHeap := by
  induction ops with
  | nil => exact fun st ref j _ => ⟨rfl, rfl⟩
  | cons op ops ih =>
    intro st ref j h
    have h1 : (st.mutateList ref op).listHeap.getD j [] = st.listHeap.getD j [] :=
      getD_set_ne _ _ _ _ _ h
    have h2 := ih (st.mutateList ref op) ref j h
    exact ⟨h2.1.trans h1, h2.2⟩

/-- C8 counterexample: mutating, through `Row.__setitem__`, the row
object reached from the sequence `select_all` returned changes the
table's stored rows — the copy is shallow, Row objects are shared. -/
theorem selectAll_row_mutation_corrupts_table :
    (((selectAllH c8st c8t).1.setRowItem
        (((selectAllH c8st c8t).1.listHeap.getD (selectAllH c8st c8t).2 []).getD 0 0)
        "a" (.vint 2)).tableRowsData c8t = [[("a", .vint 2)]]) ∧
    c8st.tableRowsData c8t = [[("a", .vint 1)]] := by
  decide

/-- C8 (amended): `select_all` returns a fresh list object (its reference
differs from the table's internal list) holding the same row references,
and any sequence of structural mutations of the returned list — append,
remove, insert, overwrite a slot, reverse — leaves the table's internal
row list and the stored row contents unchanged.  Mutating a shared Row
object itself is not covered: it is visible to the table. -/
theorem selectAll_copy_structural_safety (st : PyState) (t : HTable)
    (h : t.rowsRef < st.listHeap.length) :
    (selectAllH st t).2 ≠ t.rowsRef ∧
    (selectAllH st t).1.listHeap.getD (selectAllH st t).2 [] = st.rowsList t ∧
    (∀ ops : List ListOp,
      ((selectAllH st t).1.mutateListMany (selectAllH st t).2 ops).rowsList t = st.rowsList t ∧
      ((selectAllH st t).1.mutateListMany (selectAllH st t).2 ops).tableRowsData t =
        st.tableRowsData t) := by
  have hne : st.listHeap.length ≠ t.rowsRef := fun he => by omega
  refine ⟨hne, ?_, ?_⟩
  · show (st.listHeap ++ [st.rowsList t]).getD st.listHeap.length [] = st.rowsList t
    exact getD_concat_self _ _ _
  · intro ops
    have hne2 : t.rowsRef ≠ (selectAllH st t).2 := fun he => hne he.symm
    obtain ⟨hl, hr⟩ :=
      mutateListMany_preserves ops (selectAllH st t).1 (selectAllH st t).2 t.rowsRef hne2
    have hsel : (selectAllH st t).1.listHeap.getD t.rowsRef [] = st.rowsList t := by
      show (st.listHeap ++ [st.rowsList t]).getD t.rowsRef [] = st.rowsList t
      rw [getD_append_lt _ _ _ _ h]
      rfl
    have hlist : ((selectAllH st t).1.mutateListMany (selectAllH st t).2 ops).rowsList t =
        st.rowsList t := by
      unfold PyState.rowsList
      exact hl.trans hsel
    refine ⟨hlist, ?_⟩
    unfold PyState.tableRowsData
    rw [hlist, hr]
    rfl

/-- Witness for C8 (amended) at the concrete one-row heap, with a sample
mutation sequence on the returned list. -/
theorem selectAll_copy_structural_safety_witness :
    (selectAllH c8st c8t).2 ≠ c8t.rowsRef ∧
    ((selectAllH c8st c8t).1.mutateListMany (selectAllH c8st c8t).2
        [.append 5, .reverse, .removeAt 0]).tableRowsData c8t = c8st.tableRowsData c8t :=
  ⟨(selectAll_copy_structural_safety c8st c8t (by decide)).1,
   ((selectAll_copy_structural_safety c8st c8t (by decide)).2.2
      [.append 5, .reverse, .removeAt 0]).2⟩

theorem dcontains_iff {d : Fields} {k : String} : dcontains d k = true ↔ k ∈ dkeys d := by
  constructor
  · intro h
    by_contra hk
    rw [dcontains, dfind?_eq_none.2 hk] at h
    simp at h
  · intro hk
    cases hfind : dfind? d k with
    | none => exact absurd (dfind?_eq_none.1 hfind) (by simpa using hk)
    | some w => simp [dcontains, hfind]

theorem mem_dkeys_dset (d : Fields) (k : String) (v : Value) (k2 : String) :
    k2 ∈ dkeys (dset d k v) ↔ k2 = k ∨ k2 ∈ dkeys d := by
  unfold dset
  by_cases h : dcontains d k = true
  · rw [if_pos h]
    have hk : k ∈ dkeys d := dcontains_iff.1 h
    have hkeys : dkeys (d.map (fun p => if p.1 == k then (k, v) else p)) = dkeys d := by
      unfold dkeys
      rw [List.map_map]
      apply List.map_congr_left
      intro p _
      by_cases hp : (p.1 == k) = true
      · have hpe : p.1 = k := by simpa using hp
        simp [hp, hpe]
      · have hpe : ¬ p.1 = k := by simpa using hp
        simp [hpe]
    rw [hkeys]
    constructor
    · exact Or.inr
    · rintro (rfl | h2)
      · exact hk
      · exact h2
  · rw [if_neg h]
    unfold dkeys
    simp [or_comm]

theorem mem_dkeys_pydict (f : Fields) (k : String) : k ∈ dkeys (pydict f) ↔ k ∈ dkeys f := by
  have aux : ∀ acc : Fields,
      k ∈ dkeys (f.foldl (fun a p => dset a p.1 p.2) acc) ↔ k ∈ dkeys acc ∨ k ∈ dkeys f := by
    induction f with
    | nil => intro acc; simp [dkeys]
    | cons p ps ih =>
      intro acc
      rw [List.foldl_cons, ih (dset acc p.1 p.2)]
      rw [mem_dkeys_dset]
      have hc : k ∈ dkeys (p :: ps) ↔ k = p.1 ∨ k ∈ dkeys ps := by
        unfold dkeys
        simp
      rw [hc]
      tauto
  have := aux []
  rw [pydict]
  rw [this]
  simp [dkeys]

theorem matchesConds_single_missing {c : String} (op : String) (v : Value) {r : Row}
    (h : dfind? r.data c = none) :
    matchesConds [(c, op, v)] r = .error (.keyError c) := by
  simp [matchesConds, Row.getItem, h, Bind.bind, Except.bind]

theorem matchesConds_single_total {c : String} {op : String} (v : Value) (r : Row)
    (hop : op = "=" ∨ op = "!=") {w : Value} (h : dfind? r.data c = some w) :
    ∃ b, matchesConds [(c, op, v)] r = .ok b := by
  rcases hop with rfl | rfl
  · by_cases hb : pyEq w v = true
    · exact ⟨true, by simp [matchesConds, Row.getItem, h, condTest, hb,
        Bind.bind, Except.bind, Pure.pure, Except.pure]⟩
    · exact ⟨false, by simp [matchesConds, Row.getItem, h, condTest, hb,
        Bind.bind, Except.bind, Pure.pure, Except.pure]⟩
  · by_cases hb : pyEq w v = true
    · exact ⟨false, by simp [matchesConds, Row.getItem, h, condTest, hb,
        Bind.bind, Except.bind, Pure.pure, Except.pure]⟩
    · exact ⟨true, by simp [matchesConds, Row.getItem, h, condTest, hb,
        Bind.bind, Except.bind, Pure.pure, Except.pure]⟩

theorem filterRows_single_missing {c : String} {op : String} (v : Value)
    (hop : op = "=" ∨ op = "!=") :
    ∀ rs : List Row, (∃ r ∈ rs, dfind? r.data c = none) →
    filterRows [(c, op, v)] rs = .error (.keyError c) := by
  intro rs
  induction rs with
  | nil => rintro ⟨r, hr, _⟩; cases hr
  | cons r rest ih =>
    rintro ⟨r2, hr2, hmiss⟩
    rcases List.mem_cons.1 hr2 with rfl | hr3
    · simp [filterRows, matchesConds_single_missing op v hmiss, Bind.bind, Except.bind]
    · cases hfind : dfind? r.data c with
      | none =>
        simp [filterRows, matchesConds_single_missing op v hfind, Bind.bind, Except.bind]
      | some w =>
        obtain ⟨b, hb⟩ := matchesConds_single_total v r hop hfind
        have ht := ih ⟨r2, hr3, hmiss⟩
        simp [filterRows, hb, ht, Bind.bind, Except.bind]

theorem keyRows_missing (c : String) : ∀ rs : List Row,
    (∃ r ∈ rs, dfind? r.data c = none) →
    keyRows c rs = .error (.keyError c) := by
  intro rs
  induction rs with
  | nil => rintro ⟨r, hr, _⟩; cases hr
  | cons r rest ih =>
    rintro ⟨r2, hr2, hmiss⟩
    rcases List.mem_cons.1 hr2 with rfl | hr3
    · simp [keyRows, Row.getItem, hmiss, Bind.bind, Except.bind]
    · cases hfind : dfind? r.data c with
      | none => simp [keyRows, Row.getItem, hfind, Bind.bind, Except.bind]
      | some w =>
        have ht := ih ⟨r2, hr3, hmiss⟩
        simp [keyRows, Row.getItem, hfind, ht, Bind.bind, Except.bind]

/-- Values at a column that Python can add to an int accumulator or skip:
null or numeric.  A row lacking the column satisfies this vacuously. -/
def benignAt (c : String) (r : Row) : Prop :=
  ∀ w, dfind? r.data c = some w → (w = .vnone ∨ w.toNum ≠ none)

theorem sumLoop_missing (c : String) : ∀ (rs : List Row) (acc : Int),
    (∃ r ∈ rs, dfind? r.data c = none) → (∀ r ∈ rs, benignAt c r) →
    sumLoop c acc rs = .error (.keyError c) := by
  intro rs
  induction rs with
  | nil => rintro acc ⟨r, hr, _⟩; cases hr
  | cons r rest ih =>
    rintro acc ⟨r2, hr2, hmiss⟩ hben
    rcases List.mem_cons.1 hr2 with rfl | hr3
    · simp [sumLoop, Row.getItem, hmiss, Bind.bind, Except.bind]
    · cases hfind : dfind? r.data c with
      | none => simp [sumLoop, Row.getItem, hfind, Bind.bind, Except.bind]
      | some w =>
        have hben2 : ∀ r2 ∈ rest, benignAt c r2 := fun x hx => hben x (by simp [hx])
        rcases hben r (by simp) w hfind with rfl | hnum
        · have ht := ih acc ⟨r2, hr3, hmiss⟩ hben2
          simp [sumLoop, Row.getItem, hfind, ht, Bind.bind, Except.bind]
        · cases hn : w.toNum with
          | none => exact absurd hn hnum
          | some n =>
            have ht := ih (acc + n) ⟨r2, hr3, hmiss⟩ hben2
            have haddp : addPy acc w = .ok (acc + n) := by
              simp [addPy, hn]
            cases w with
            | vnone => simp [Value.toNum] at hn
            | vint m => simp [sumLoop, Row.getItem, hfind, haddp, ht, Bind.bind, Except.bind]
            | vbool b => simp [sumLoop, Row.getItem, hfind, haddp, ht, Bind.bind, Except.bind]
            | vstr s => simp [Value.toNum] at hn
            | vdate y m d => simp [Value.toNum] at hn

theorem collectVals_missing (c : String) : ∀ rs : List Row,
    (∃ r ∈ rs, dfind? r.data c = none) →
    collectVals c rs = .error (.keyError c) := by
  intro rs
  induction rs with
  | nil => rintro ⟨r, hr, _⟩; cases hr
  | cons r rest ih =>
    rintro ⟨r2, hr2, hmiss⟩
    rcases List.mem_cons.1 hr2 with rfl | hr3
    · simp [collectVals, Row.getItem, hmiss, Bind.bind, Except.bind]
    · cases hfind : dfind? r.data c with
      | none => simp [collectVals, Row.getItem, hfind, Bind.bind, Except.bind]
      | some w =>
        have ht := ih ⟨r2, hr3, hmiss⟩
        simp [collectVals, Row.getItem, hfind, ht, Bind.bind, Except.bind]

/-- C10 counterexample: column `b` is absent from the second source row,
yet the single clause `a = 2` rejects that row before `b` is ever read,
so `execute`, `count` and `sum("b")` all succeed — no `KeyError` is
raised merely because the column is absent from some source row. -/
theorem missing_column_unreached_no_keyerror :
    c10q.sum "b" = .ok 5 ∧
    c10q.execute = .ok [⟨[("a", .vint 2), ("b", .vint 5)], some 1⟩] ∧
    c10q.count = .ok 1 ∧
    dfind? (⟨[("a", .vint 1)], some 2⟩ : Row).data "b" = none := by
  decide

/-- C10 (amended): `insert` stores exactly the passed keys (an omitted
column leaves no entry), and a missing column raises `KeyError`
precisely when the access is reached: a single-`=`/`!=`-clause filter
whose column is absent from some source row makes
`execute`/`count`/`sum`/`avg` fail with that `KeyError`; a sort column
absent from some filtered row makes `_filtered_rows` fail; and an
`avg`/`sum` column absent from some filtered row makes the aggregate
fail (for `sum`, when the values encountered are null or numeric) — the
missing value is never treated as null. -/
theorem row_lookup_partial_amended :
    (∀ (t : Table) (f : Fields) (row : Row) (t2 : Table),
      t.insert f = (.ok row, t2) →
      row.data = pydict f ∧ ∀ k, dcontains row.data k = true ↔ k ∈ dkeys f) ∧
    (∀ (q : SimpleQuery) (c op : String) (v : Value),
      q.filterConditions = [(c, op, v)] →
      (op = "=" ∨ op = "!=") →
      (∃ r ∈ q.source, dfind? r.data c = none) →
      q.filteredRows = .error (.keyError c) ∧
      q.execute = .error (.keyError c) ∧
      q.count = .error (.keyError c) ∧
      (∀ col, q.sum col = .error (.keyError c)) ∧
      (∀ col, q.avg col = .error (.keyError c))) ∧
    (∀ (q : SimpleQuery) (c : String) (fl : List Row),
      q.sortColumn = some c →
      filterRows q.filterConditions q.source = .ok fl →
      (∃ r ∈ fl, dfind? r.data c = none) →
      q.filteredRows = .error (.keyError c)) ∧
    (∀ (q : SimpleQuery) (c : String) (rs : List Row),
      q.filteredRows = .ok rs →
      (∃ r ∈ rs, dfind? r.data c = none) →
      (q.avg c = .error (.keyError c)) ∧
      ((∀ r ∈ rs, benignAt c r) → q.sum c = .error (.keyError c))) := by
  refine ⟨?_, ?_, ?_, ?_⟩
  · intro t f row t2 h
    unfold Table.insert at h
    cases hv : t.validateRowData f with
    | error e => rw [hv] at h; simp at h
    | ok u =>
      rw [hv] at h
      simp only [Prod.mk.injEq] at h
      obtain ⟨h1, _⟩ := h
      injection h1 with h1
      subst h1
      exact ⟨rfl, fun k => by rw [dcontains_iff]; exact mem_dkeys_pydict f k⟩
  · intro q c op v hq hop hmiss
    have hf : filterRows q.filterConditions q.source = .error (.keyError c) := by
      rw [hq]
      exact filterRows_single_missing v hop q.source hmiss
    have hfr : q.filteredRows = .error (.keyError c) := by
      simp [SimpleQuery.filteredRows, hf, Bind.bind, Except.bind]
    refine ⟨hfr, ?_, ?_, ?_, ?_⟩
    · simp [SimpleQuery.execute, hfr, Bind.bind, Except.bind]
    · simp [SimpleQuery.count, hfr, Bind.bind, Except.bind]
    · intro col; simp [SimpleQuery.sum, hfr, Bind.bind, Except.bind]
    · intro col; simp [SimpleQuery.avg, hfr, Bind.bind, Except.bind]
  · intro q c fl hsort hfilter hmiss
    simp [SimpleQuery.filteredRows, hfilter, hsort, keyRows_missing c fl hmiss,
      Bind.bind, Except.bind]
  · intro q c rs hfr hmiss
    constructor
    · unfold SimpleQuery.avg
      rw [hfr]
      simp [collectVals_missing c rs hmiss, Bind.bind, Except.bind]
    · intro hben
      unfold SimpleQuery.sum
      rw [hfr]
      simp [sumLoop_missing c rs 0 hmiss hben, Bind.bind, Except.bind]

/-- Witness for C10 (amended) at concrete inputs for each conjunct. -/
theorem row_lookup_partial_amended_witness :
    ((⟨[("x", .vint 1)], some 1⟩ : Row).data = pydict [("x", .vint 1)]) ∧
    (SimpleQuery.mk [⟨[("z", .vint 1)], none⟩] none [("miss", "=", .vint 0)] none true).count =
      .error (.keyError "miss") ∧
    (SimpleQuery.mk [⟨[], none⟩] none [] (some "c") true).filteredRows =
      .error (.keyError "c") ∧
    (SimpleQuery.mk [⟨[], none⟩] none [] none true).avg "c" = .error (.keyError "c") ∧
    (SimpleQuery.mk [⟨[], none⟩] none [] none true).sum "c" = .error (.keyError "c") := by
  refine ⟨?_, ?_, ?_, ?_, ?_⟩
  · exact (row_lookup_partial_amended.1 (Table.make "t" []) [("x", .vint 1)]
      ⟨[("x", .vint 1)], some 1⟩ _ rfl).1
  · exact (row_lookup_partial_amended.2.1
      (SimpleQuery.mk [⟨[("z", .vint 1)], none⟩] none [("miss", "=", .vint 0)] none true)
      "miss" "=" (.vint 0) rfl (Or.inl rfl)
      ⟨⟨[("z", .vint 1)], none⟩, by simp, by decide⟩).2.2.1
  · exact row_lookup_partial_amended.2.2.1
      (SimpleQuery.mk [⟨[], none⟩] none [] (some "c") true) "c" [⟨[], none⟩]
      rfl (by decide) ⟨⟨[], none⟩, by simp, by decide⟩
  · exact (row_lookup_partial_amended.2.2.2
      (SimpleQuery.mk [⟨[], none⟩] none [] none true) "c" [⟨[], none⟩]
      (by decide) ⟨⟨[], none⟩, by simp, by decide⟩).1
  · exact (row_lookup_partial_amended.2.2.2
      (SimpleQuery.mk [⟨[], none⟩] none [] none true) "c" [⟨[], none⟩]
      (by decide) ⟨⟨[], none⟩, by simp, by decide⟩).2
      (by
        intro r hr w hw
        simp at hr
        subst hr
        simp [dfind?] at hw)

theorem dotfree_sep_inj : ∀ (a b : List Char) {x y : List Char},
    '.' ∉ a → '.' ∉ b → a ++ '.' :: x = b ++ '.' :: y → a = b ∧ x = y := by
  intro a
  induction a with
  | nil =>
    intro b x y _ hb h
    cases b with
    | nil => simpa using h
    | cons c bs =>
      simp only [List.nil_append, List.cons_append, List.cons.injEq] at h
      exact absurd (by simp [← h.1]) hb
  | cons c as ih =>
    intro b x y ha hb h
    cases b with
    | nil =>
      simp only [List.nil_append, List.cons_append, List.cons.injEq] at h
      exact absurd (by simp [h.1]) ha
    | cons c2 bs =>
      simp only [List.cons_append, List.cons.injEq] at h
      have ha2 : '.' ∉ as := fun hm => ha (by simp [hm])
      have hb2 : '.' ∉ bs := fun hm => hb (by simp [hm])
      obtain ⟨he, hx⟩ := ih bs ha2 hb2 h.2
      exact ⟨by rw [h.1, he], hx⟩

theorem pfx_ne {L R : String} (hL : '.' ∉ L.data) (hR : '.' ∉ R.data) (hne : L ≠ R)
    (k k2 : String) : L ++ "." ++ k ≠ R ++ "." ++ k2 := by
  intro h
  have hd := congrArg String.data h
  simp only [String.data_append] at hd
  rw [List.append_assoc, List.append_assoc] at hd
  have hd2 : L.data ++ '.' :: k.data = R.data ++ '.' :: k2.data := by simpa using hd
  exact hne (String.ext (dotfree_sep_inj _ _ hL hR hd2).1)

theorem strcat_inj {L k k2 : String} (h : L ++ "." ++ k = L ++ "." ++ k2) : k = k2 := by
  have hd := congrArg String.data h
  simp only [String.data_append] at hd
  exact String.ext (List.append_cancel_left hd)

theorem dkeys_prefixedItems (T : String) (d : Fields) :
    dkeys (prefixedItems T d) = (dkeys d).map (fun k => T ++ "." ++ k) := by
  simp [dkeys, prefixedItems]

theorem nodup_prefixedItems (T : String) (d : Fields) (h : (dkeys d).Nodup) :
    (dkeys (prefixedItems T d)).Nodup := by
  rw [dkeys_prefixedItems]
  exact h.map (fun a b hab => strcat_inj hab)

theorem joinedRowData_eq {L R : String} (hL : '.' ∉ L.data) (hR : '.' ∉ R.data)
    (hne : L ≠ R) {l r : Row} (hndl : (dkeys l.data).Nodup) (hndr : (dkeys r.data).Nodup) :
    joinedRowData L R l r = prefixedItems L l.data ++ prefixedItems R r.data := by
  unfold joinedRowData
  have h1 : dupdate [] (prefixedItems L l.data) = prefixedItems L l.data := by
    have := foldl_dset_append (prefixedItems L l.data) []
      (nodup_prefixedItems L l.data hndl) (by simp [dkeys])
    simpa [dupdate] using this
  rw [h1]
  have hdisj : ∀ k ∈ dkeys (prefixedItems R r.data), k ∉ dkeys (prefixedItems L l.data) := by
    intro k hk hk2
    rw [dkeys_prefixedItems] at hk hk2
    obtain ⟨kr, _, rfl⟩ := List.mem_map.1 hk
    obtain ⟨kl, _, he⟩ := List.mem_map.1 hk2
    exact pfx_ne hL hR hne kl kr (he.trans rfl)
  exact foldl_dset_append _ _ (nodup_prefixedItems R r.data hndr) hdisj

theorem getItem_present {r : Row} {c : String} (h : dcontains r.data c = true) :
    r.getItem c = .ok (dget r.data c) := by
  unfold Row.getItem dget
  cases hf : dfind? r.data c with
  | none => rw [dcontains, hf] at h; simp at h
  | some w => simp [hf]

theorem joinOne_eq (L R lc rc : String) (l : Row) (hl : dcontains l.data lc = true) :
    ∀ rs : List Row, (∀ r ∈ rs, dcontains r.data rc = true) →
    joinOne L R lc rc l rs = .ok
      ((rs.filter (fun r => pyEq (dget l.data lc) (dget r.data rc))).map
        (fun r => Row.make (joinedRowData L R l r))) := by
  intro rs
  induction rs with
  | nil => intro _; rfl
  | cons r rest ih =>
    intro hall
    have h1 : l.getItem lc = .ok (dget l.data lc) := getItem_present hl
    have h2 : r.getItem rc = .ok (dget r.data rc) := getItem_present (hall r (by simp))
    have ht := ih (fun x hx => hall x (by simp [hx]))
    by_cases he : pyEq (dget l.data lc) (dget r.data rc) = true
    · simp [joinOne, h1, h2, ht, he, List.filter_cons,
        Bind.bind, Except.bind, Pure.pure, Except.pure]
    · simp [joinOne, h1, h2, ht, he, List.filter_cons,
        Bind.bind, Except.bind, Pure.pure, Except.pure]

theorem joinAll_eq (L R lc rc : String) (rightRows : List Row)
    (hr : ∀ r ∈ rightRows, dcontains r.data rc = true) :
    ∀ ls : List Row, (∀ l ∈ ls, dcontains l.data lc = true) →
    joinAll L R lc rc rightRows ls = .ok
      (ls.flatMap (fun l =>
        (rightRows.filter (fun r => pyEq (dget l.data lc) (dget r.data rc))).map
          (fun r => Row.make (joinedRowData L R l r)))) := by
  intro ls
  induction ls with
  | nil => intro _; rfl
  | cons l rest ih =>
    intro hall
    have h1 := joinOne_eq L R lc rc l (hall l (by simp)) rightRows hr
    have ht := ih (fun x hx => hall x (by simp [hx]))
    simp [joinAll, h1, ht, Bind.bind, Except.bind, Pure.pure, Except.pure]

/-- C7 counterexample: joining two tables that share the name `u` makes
the two prefixed field sets collide; the right side's `u.a = 2`
overwrites the left side's `u.a = 1`, so the output row is not the
union of the two prefixed field sets. -/
theorem join_same_name_collision :
    JoinedTable.make c7lt c7rt "j" "j" = .ok
      ⟨c7lt, c7rt, "j", "j", "u_join_u", [⟨[("u.a", .vint 2), ("u.j", .vint 0)], none⟩]⟩ ∧
    (⟨[("u.a", .vint 2), ("u.j", .vint 0)], none⟩ : Row).data ≠
      prefixedItems c7lt.name (⟨[("a", .vint 1), ("j", .vint 0)], some 1⟩ : Row).data ++
      prefixedItems c7rt.name (⟨[("a", .vint 2), ("j", .vint 0)], some 1⟩ : Row).data ∧
    dfind? [("u.a", .vint 2), ("u.j", .vint 0)] "u.a" = some (.vint 2) := by
  decide

/-- C7 (amended): when the two source tables have distinct names neither
of which contains a dot (as every registry pair does), no prefixed left
field name can collide with a prefixed right field name, and each output
row of the join is exactly the disjoint union of the matched left row's
fields prefixed with the left table's name and the matched right row's
fields prefixed with the right table's name. -/
theorem join_prefixed_disjoint_union (lt rt : Table) (lc rc : String)
    (hname : lt.name ≠ rt.name)
    (hdl : '.' ∉ lt.name.data) (hdr : '.' ∉ rt.name.data)
    (hndl : ∀ l ∈ lt.rows, (dkeys l.data).Nodup)
    (hndr : ∀ r ∈ rt.rows, (dkeys r.data).Nodup)
    (hkl : ∀ l ∈ lt.rows, dcontains l.data lc = true)
    (hkr : ∀ r ∈ rt.rows, dcontains r.data rc = true) :
    (∀ l ∈ lt.rows, ∀ r ∈ rt.rows, ∀ k ∈ dkeys (prefixedItems lt.name l.data),
       k ∉ dkeys (prefixedItems rt.name r.data)) ∧
    JoinedTable.make lt rt lc rc = .ok
      ⟨lt, rt, lc, rc, lt.name ++ "_join_" ++ rt.name, specJoinedRows lt rt lc rc⟩ := by
  constructor
  · intro l _ r _ k hk hk2
    rw [dkeys_prefixedItems] at hk hk2
    obtain ⟨kl, _, rfl⟩ := List.mem_map.1 hk
    obtain ⟨kr, _, he⟩ := List.mem_map.1 hk2
    exact pfx_ne hdl hdr hname kl kr he.symm
  · have hAll := joinAll_eq lt.name rt.name lc rc rt.rows hkr lt.rows hkl
    have hrows : lt.rows.flatMap (fun l =>
        (rt.rows.filter (fun r => pyEq (dget l.data lc) (dget r.data rc))).map
          (fun r => Row.make (joinedRowData lt.name rt.name l r))) =
        specJoinedRows lt rt lc rc := by
      unfold specJoinedRows
      rw [List.flatMap_def, List.flatMap_def]
      congr 1
      apply List.map_congr_left
      intro l hl
      apply List.map_congr_left
      intro r hr
      have hrmem := List.mem_of_mem_filter hr
      have hjd := joinedRowData_eq hdl hdr hname (hndl l hl) (hndr r hrmem)
      unfold Row.make
      rw [hjd]
      have hdk : dkeys (prefixedItems lt.name l.data ++ prefixedItems rt.name r.data) =
          dkeys (prefixedItems lt.name l.data) ++ dkeys (prefixedItems rt.name r.data) := by
        simp [dkeys]
      have hnd : (dkeys (prefixedItems lt.name l.data ++ prefixedItems rt.name r.data)).Nodup := by
        rw [hdk]
        refine List.Nodup.append (nodup_prefixedItems _ _ (hndl l hl))
          (nodup_prefixedItems _ _ (hndr r hrmem)) ?_
        intro a ha hb
        rw [dkeys_prefixedItems] at ha hb
        obtain ⟨kl, _, rfl⟩ := List.mem_map.1 ha
        obtain ⟨kr, _, he⟩ := List.mem_map.1 hb
        exact pfx_ne hdl hdr hname kl kr he.symm
      rw [pydict_eq_self hnd]
    simp [JoinedTable.make, hAll, hrows, Bind.bind, Except.bind, Pure.pure, Except.pure]

/-- Witness for C7 (amended) at a concrete `users`/`orders` join. -/
theorem join_prefixed_disjoint_union_witness :
    JoinedTable.make c7wlt c7wrt "id" "user_id" = .ok
      ⟨c7wlt, c7wrt, "id", "user_id", "users_join_orders",
        specJoinedRows c7wlt c7wrt "id" "user_id"⟩ :=
  (join_prefixed_disjoint_union c7wlt c7wrt "id" "user_id" (by decide) (by decide)
    (by decide) (by decide) (by decide) (by decide) (by decide)).2

theorem kLt_irrefl (a : Option Int) : kLt a a = false := by
  cases a <;> simp [kLt]

theorem kLe_total (a b : Option Int) : kLe a b = true ∨ kLe b a = true := by
  cases a <;> cases b <;> simp [kLe, kLt]
  omega

theorem kLe_trans {a b c : Option Int} (h1 : kLe a b = true) (h2 : kLe b c = true) :
    kLe a c = true := by
  cases a <;> cases b <;> cases c <;> simp [kLe, kLt] at *
  all_goals omega

theorem keyLtV_ok {a b : Value} (ha : sortOK a) (hb : sortOK b) :
    keyLtV a b = .ok (kLt (keyOI a) (keyOI b)) := by
  rcases ha with rfl | ⟨m, rfl⟩ <;> rcases hb with rfl | ⟨n, rfl⟩
  · rfl
  · rfl
  · rfl
  · by_cases he : m = n
    · subst he
      simp [keyLtV, pyEq, Value.toNum, kLt, keyOI]
    · simp [keyLtV, pyEq, Value.toNum, pyLt, kLt, keyOI, he]

theorem insertKeyed_eq (asc : Bool) (x : Keyed) (hx : sortOK x.2) :
    ∀ l : List Keyed, (∀ p ∈ l, sortOK p.2) →
    insertKeyed asc x l = .ok (List.orderedInsert (sortRel asc) x l) := by
  intro l
  induction l with
  | nil => intro _; rfl
  | cons y ys ih =>
    intro hl
    have hy : sortOK y.2 := hl y (by simp)
    have ht := ih (fun p hp => hl p (by simp [hp]))
    cases asc with
    | false =>
      have hlt : keyLtV x.2 y.2 = .ok (kLt (keyOI x.2) (keyOI y.2)) := keyLtV_ok hx hy
      by_cases hb : kLt (keyOI x.2) (keyOI y.2) = true
      · have hrel : ¬ sortRel false x y := by simp [sortRel, descLe, kLe, hb]
        simp [insertKeyed, sortLt, hlt, hb, ht, List.orderedInsert, hrel,
          Bind.bind, Except.bind, Pure.pure, Except.pure]
      · have hrel : sortRel false x y := by
          simp [sortRel, descLe, kLe]
          simpa using hb
        simp [insertKeyed, sortLt, hlt, hb, List.orderedInsert, hrel,
          Bind.bind, Except.bind, Pure.pure, Except.pure]
    | true =>
      have hlt : keyLtV y.2 x.2 = .ok (kLt (keyOI y.2) (keyOI x.2)) := keyLtV_ok hy hx
      by_cases hb : kLt (keyOI y.2) (keyOI x.2) = true
      · have hrel : ¬ sortRel true x y := by simp [sortRel, ascLe, kLe, hb]
        simp [insertKeyed, sortLt, hlt, hb, ht, List.orderedInsert, hrel,
          Bind.bind, Except.bind, Pure.pure, Except.pure]
      · have hrel : sortRel true x y := by
          simp [sortRel, ascLe, kLe]
          simpa using hb
        simp [insertKeyed, sortLt, hlt, hb, List.orderedInsert, hrel,
          Bind.bind, Except.bind, Pure.pure, Except.pure]

theorem sortKeyed_eq (asc : Bool) : ∀ l : List Keyed, (∀ p ∈ l, sortOK p.2) →
    sortKeyed asc l = .ok (List.insertionSort (sortRel asc) l) := by
  intro l
  induction l with
  | nil => intro _; rfl
  | cons x xs ih =>
    intro hl
    have ht := ih (fun p hp => hl p (by simp [hp]))
    have hx : sortOK x.2 := hl x (by simp)
    have hins := insertKeyed_eq asc x hx (List.insertionSort (sortRel asc) xs)
      (fun p hp => hl p (by simp [(List.mem_insertionSort (sortRel asc)).1 hp]))
    simp [sortKeyed, ht, hins, List.insertionSort, Bind.bind, Except.bind]

theorem keyRows_eq (c : String) : ∀ rs : List Row,
    (∀ r ∈ rs, dcontains r.data c = true) →
    keyRows c rs = .ok (rs.map (fun r => ((r, dget r.data c) : Keyed))) := by
  intro rs
  induction rs with
  | nil => intro _; rfl
  | cons r rest ih =>
    intro hall
    have h1 := getItem_present (hall r (by simp))
    have ht := ih (fun x hx => hall x (by simp [hx]))
    simp [keyRows, h1, ht, Bind.bind, Except.bind, Pure.pure, Except.pure]

theorem sortRel_of_key_eq (asc : Bool) {x y : Keyed} (h : keyOI x.2 = keyOI y.2) :
    sortRel asc x y := by
  cases asc <;> simp [sortRel, ascLe, descLe, h, kLe, kLt_irrefl]

theorem filter_orderedInsert (asc : Bool) (k : Option Int) (x : Keyed) :
    ∀ l : List Keyed,
    (List.orderedInsert (sortRel asc) x l).filter (fun z => keyOI z.2 == k) =
      (if keyOI x.2 == k then x :: l.filter (fun z => keyOI z.2 == k)
       else l.filter (fun z => keyOI z.2 == k)) := by
  intro l
  induction l with
  | nil =>
    by_cases hx : (keyOI x.2 == k) = true <;>
      simp [List.orderedInsert, List.filter, hx]
  | cons y ys ih =>
    by_cases hr : sortRel asc x y
    · by_cases hx : (keyOI x.2 == k) = true <;>
        simp [List.orderedInsert, hr, List.filter_cons, hx]
    · have hkne : keyOI x.2 ≠ keyOI y.2 := fun he => hr (sortRel_of_key_eq asc he)
      simp only [List.orderedInsert, if_neg hr]
      by_cases hx : (keyOI x.2 == k) = true
      · have hxk : keyOI x.2 = k := by simpa using hx
        have hy : (keyOI y.2 == k) = false := by
          simp only [beq_eq_false_iff_ne, ne_eq]
          intro he
          exact hkne (by rw [hxk, he])
        simp [List.filter_cons, hx, hy, ih]
      · have hx2 : (keyOI x.2 == k) = false := by simpa using hx
        by_cases hy : (keyOI y.2 == k) = true <;>
          simp [List.filter_cons, hx2, hy, ih]

theorem filter_insertionSort (asc : Bool) (k : Option Int) :
    ∀ l : List Keyed,
    (List.insertionSort (sortRel asc) l).filter (fun z => keyOI z.2 == k) =
      l.filter (fun z => keyOI z.2 == k) := by
  intro l
  induction l with
  | nil => rfl
  | cons x xs ih =>
    simp only [List.insertionSort]
    rw [filter_orderedInsert]
    by_cases hx : (keyOI x.2 == k) = true <;> simp [List.filter_cons, hx, ih]

/-- C1 counterexample: ascending sort on column `c` over a null row and
the row holding 5 returns the non-null row first and the null row last —
nulls are not placed before non-nulls when ascending. -/
theorem ascending_puts_nulls_last_cex :
    c1q.filteredRows = .ok [⟨[("c", .vint 5)], some 2⟩, ⟨[("c", .vnone)], some 1⟩] ∧
    c1q.sortAscending = true ∧
    dfind? (⟨[("c", .vint 5)], some 2⟩ : Row).data "c" = some (.vint 5) ∧
    dfind? (⟨[("c", .vnone)], some 1⟩ : Row).data "c" = some .vnone := by
  decide

/-- C1 (amended): sorting by a column whose (filtered) values are nulls
and ints places, ascending, every null row after every non-null row (the
key is the tuple `(v is None, v)`, and `True > False`), and
correspondingly before them when descending; and the sort is stable:
for every key, the rows carrying that key appear in the output in their
filtered input order. -/
theorem orderBy_nulls_and_stability (q : SimpleQuery) (c : String) (fl : List Row)
    (hc : q.sortColumn = some c)
    (hf : filterRows q.filterConditions q.source = .ok fl)
    (hok : ∀ r ∈ fl, dfind? r.data c = some .vnone ∨
      ∃ n : Int, dfind? r.data c = some (.vint n)) :
    ∃ out, q.filteredRows = .ok out ∧
      (q.sortAscending = true →
        out.Pairwise (fun a b => dfind? a.data c = some .vnone →
          dfind? b.data c = some .vnone)) ∧
      (q.sortAscending = false →
        out.Pairwise (fun a b => dfind? b.data c = some .vnone →
          dfind? a.data c = some .vnone)) ∧
      (∀ k : Option Int,
        out.filter (fun r => keyOI (dget r.data c) == k) =
          fl.filter (fun r => keyOI (dget r.data c) == k)) := by
  have hcont : ∀ r ∈ fl, dcontains r.data c = true := by
    intro r hr
    rcases hok r hr with h | ⟨n, h⟩ <;> simp [dcontains, h]
  have hkr := keyRows_eq c fl hcont
  have hkOK : ∀ p ∈ fl.map (fun r => ((r, dget r.data c) : Keyed)), sortOK p.2 := by
    intro p hp
    obtain ⟨r, hr, rfl⟩ := List.mem_map.1 hp
    rcases hok r hr with h | ⟨n, h⟩
    · exact Or.inl (by simp [dget, h])
    · exact Or.inr ⟨n, by simp [dget, h]⟩
  have hsort := sortKeyed_eq q.sortAscending _ hkOK
  refine ⟨(List.insertionSort (sortRel q.sortAscending)
      (fl.map (fun r => ((r, dget r.data c) : Keyed)))).map (·.1), ?_, ?_, ?_, ?_⟩
  · simp [SimpleQuery.filteredRows, hf, hc, hkr, hsort,
      Bind.bind, Except.bind, Pure.pure, Except.pure]
  · intro hasc
    rw [hasc]
    haveI : IsTotal Keyed (sortRel true) := ⟨fun a b => by
      have := kLe_total (keyOI a.2) (keyOI b.2)
      simpa [sortRel, ascLe] using this⟩
    haveI : IsTrans Keyed (sortRel true) := ⟨fun a b c2 hab hbc => by
      simp only [sortRel, ascLe, if_true] at *
      exact kLe_trans hab hbc⟩
    have hs := List.sorted_insertionSort (sortRel true)
      (fl.map (fun r => ((r, dget r.data c) : Keyed)))
    refine List.pairwise_map.mpr ?_
    refine List.Pairwise.imp_of_mem ?_ hs
    intro a b ha hb hr hna
    have ha2 := (List.mem_insertionSort (sortRel true)).1 ha
    have hb2 := (List.mem_insertionSort (sortRel true)).1 hb
    obtain ⟨ra, hra, rfl⟩ := List.mem_map.1 ha2
    obtain ⟨rb, hrb, rfl⟩ := List.mem_map.1 hb2
    rcases hok rb hrb with h | ⟨n, h⟩
    · exact h
    · exfalso
      have hka : keyOI (dget ra.data c) = none := by simp [dget, hna, keyOI]
      have hkb : keyOI (dget rb.data c) = some n := by simp [dget, h, keyOI]
      simp only [sortRel, ascLe, if_true] at hr
      simp [hka, hkb, kLe, kLt] at hr
  · intro hdesc
    rw [hdesc]
    haveI : IsTotal Keyed (sortRel false) := ⟨fun a b => by
      have := kLe_total (keyOI b.2) (keyOI a.2)
      simpa [sortRel, descLe, or_comm] using this⟩
    haveI : IsTrans Keyed (sortRel false) := ⟨fun a b c2 hab hbc => by
      simp only [sortRel, descLe, if_false] at *
      exact kLe_trans hbc hab⟩
    have hs := List.sorted_insertionSort (sortRel false)
      (fl.map (fun r => ((r, dget r.data c) : Keyed)))
    refine List.pairwise_map.mpr ?_
    refine List.Pairwise.imp_of_mem ?_ hs
    intro a b ha hb hr hnb
    have ha2 := (List.mem_insertionSort (sortRel false)).1 ha
    have hb2 := (List.mem_insertionSort (sortRel false)).1 hb
    obtain ⟨ra, hra, rfl⟩ := List.mem_map.1 ha2
    obtain ⟨rb, hrb, rfl⟩ := List.mem_map.1 hb2
    rcases hok ra hra with h | ⟨n, h⟩
    · exact h
    · exfalso
      have hkb : keyOI (dget rb.data c) = none := by simp [dget, hnb, keyOI]
      have hka : keyOI (dget ra.data c) = some n := by simp [dget, h, keyOI]
      simp only [sortRel, descLe, if_false] at hr
      simp [hka, hkb, kLe, kLt] at hr
  · intro k
    rw [List.filter_map]
    have hcongr : (List.insertionSort (sortRel q.sortAscending)
        (fl.map (fun r => ((r, dget r.data c) : Keyed)))).filter
          ((fun r => keyOI (dget r.data c) == k) ∘ (·.1)) =
        (List.insertionSort (sortRel q.sortAscending)
          (fl.map (fun r => ((r, dget r.data c) : Keyed)))).filter
          (fun z => keyOI z.2 == k) := by
      apply List.filter_congr
      intro z hz
      have hz2 := (List.mem_insertionSort (sortRel q.sortAscending)).1 hz
      obtain ⟨r, hr, rfl⟩ := List.mem_map.1 hz2
      rfl
    rw [hcongr, filter_insertionSort, List.filter_map, List.map_map]
    have h2 : List.filter ((fun z : Keyed => keyOI z.2 == k) ∘ fun r : Row =>
        ((r, dget r.data c) : Keyed)) fl = List.filter (fun r => keyOI (dget r.data c) == k) fl :=
      List.filter_congr (fun x _ => rfl)
    rw [h2]
    have h3 : ∀ l : List Row, List.map ((fun x : Keyed => x.1) ∘ fun r : Row =>
        ((r, dget r.data c) : Keyed)) l = l := by
      intro l
      induction l with
      | nil => rfl
      | cons a as ih => simp only [List.map_cons, ih, Function.comp_apply]
    exact h3 _

/-- Witness for C1 (amended): on the two-row query sorted ascending, the
output is computed and every null row follows every non-null row. -/
theorem orderBy_nulls_and_stability_witness :
    c1q.filteredRows = .ok [⟨[("c", .vint 5)], some 2⟩, ⟨[("c", .vnone)], some 1⟩] ∧
    ([⟨[("c", .vint 5)], some 2⟩, ⟨[("c", .vnone)], some 1⟩] : List Row).Pairwise
      (fun a b => dfind? a.data "c" = some .vnone → dfind? b.data "c" = some .vnone) := by
  obtain ⟨out, h1, h2, _, _⟩ := orderBy_nulls_and_stability c1q "c"
    [⟨[("c", .vnone)], some 1⟩, ⟨[("c", .vint 5)], some 2⟩] rfl (by decide)
    (by
      intro r hr
      rcases (by simpa using hr :
          r = (⟨[("c", .vnone)], some 1⟩ : Row) ∨ r = (⟨[("c", .vint 5)], some 2⟩ : Row))
        with rfl | rfl
      · exact Or.inl (by decide)
      · exact Or.inr ⟨5, by decide⟩)
  have h0 : c1q.filteredRows =
      .ok [⟨[("c", .vint 5)], some 2⟩, ⟨[("c", .vnone)], some 1⟩] := by decide
  have he : out = [⟨[("c", .vint 5)], some 2⟩, ⟨[("c", .vnone)], some 1⟩] := by
    rw [h0] at h1
    injection h1 with h1
    exact h1.symm
  exact ⟨h0, he ▸ h2 rfl⟩

end MiniDB
